import Mathlib

/-!
Verification of the satellite service-mesh client (Registry / DiscoveryManager,
RequestCoordinator / RequestManager, TopicRouter / TopicManager).

The JavaScript managers keep their state in `Map` and `Set` objects.  We embed
`Map<K,V>` as an association list `List (K × V)` with the insertion-order
semantics of a JS `Map` (`set` replaces in place or appends, `delete` removes
the single matching entry, `get` returns the first match) and `Set<V>` as a
`List V` where `add` appends when absent and `delete` removes the entry.
-/

section MapSet

variable {α : Type} {β : Type} [DecidableEq α]

/-- JS `Map.prototype.get`. -/
def mapGet : List (α × β) → α → Option β
  | [], _ => none
  | (k, v) :: rest, a => if k = a then some v else mapGet rest a

/-- JS `Map.prototype.set`: replace in place when the key is present, append
otherwise. -/
def mapSet : List (α × β) → α → β → List (α × β)
  | [], a, b => [(a, b)]
  | (k, v) :: rest, a, b => if k = a then (a, b) :: rest else (k, v) :: mapSet rest a b

/-- JS `Map.prototype.delete`: remove the entry for the key when present. -/
def mapDelete : List (α × β) → α → List (α × β)
  | [], _ => []
  | (k, v) :: rest, a => if k = a then rest else (k, v) :: mapDelete rest a

/-- The keys of an embedded map are pairwise distinct (true of every JS `Map`). -/
def keyNodup (m : List (α × β)) : Prop := (m.map Prod.fst).Nodup

/-- JS `Set.prototype.add`: append when absent. -/
def setAdd (s : List α) (x : α) : List α := if x ∈ s then s else s ++ [x]

/-- JS `Set.prototype.delete`: remove the element when present. -/
def setDelete : List α → α → List α
  | [], _ => []
  | y :: rest, x => if y = x then rest else y :: setDelete rest x

theorem mapGet_mapSet_self (m : List (α × β)) (k : α) (v : β) :
    mapGet (mapSet m k v) k = some v := by
  induction m with
  | nil => simp [mapGet, mapSet]
  | cons p rest ih =>
    obtain ⟨k', v'⟩ := p
    by_cases h : k' = k <;> simp [mapGet, mapSet, h, ih]

theorem mapGet_mapSet_ne (m : List (α × β)) (k k' : α) (v : β) (h : k' ≠ k) :
    mapGet (mapSet m k v) k' = mapGet m k' := by
  induction m with
  | nil => simp [mapGet, mapSet, Ne.symm h]
  | cons p rest ih =>
    obtain ⟨a, b⟩ := p
    by_cases ha : a = k
    · subst ha
      simp [mapGet, mapSet, Ne.symm h]
    · by_cases ha' : a = k' <;> simp [mapGet, mapSet, ha, ha', ih, h]

theorem mapGet_mapSet (m : List (α × β)) (k k' : α) (v : β) :
    mapGet (mapSet m k v) k' = if k' = k then some v else mapGet m k' := by
  by_cases h : k' = k
  · subst h; simp [mapGet_mapSet_self]
  · simp [h, mapGet_mapSet_ne m k k' v h]

theorem mapGet_mapDelete_ne (m : List (α × β)) (k k' : α) (h : k' ≠ k) :
    mapGet (mapDelete m k) k' = mapGet m k' := by
  induction m with
  | nil => simp [mapDelete]
  | cons p rest ih =>
    obtain ⟨a, b⟩ := p
    by_cases ha : a = k
    · subst ha
      simp [mapGet, mapDelete, Ne.symm h]
    · by_cases ha' : a = k' <;> simp [mapGet, mapDelete, ha, ha', ih, h]

theorem mapGet_eq_none_of_not_mem_keys (m : List (α × β)) (k : α)
    (h : k ∉ m.map Prod.fst) : mapGet m k = none := by
  induction m with
  | nil => simp [mapGet]
  | cons p rest ih =>
    obtain ⟨a, b⟩ := p
    simp only [List.map_cons, List.mem_cons] at h
    push_neg at h
    simp [mapGet, Ne.symm h.1, ih h.2]

theorem mapGet_mapDelete_self (m : List (α × β)) (k : α) (h : keyNodup m) :
    mapGet (mapDelete m k) k = none := by
  induction m with
  | nil => simp [mapDelete, mapGet]
  | cons p rest ih =>
    obtain ⟨a, b⟩ := p
    simp only [keyNodup, List.map_cons, List.nodup_cons] at h
    by_cases ha : a = k
    · subst ha
      simpa [mapDelete] using mapGet_eq_none_of_not_mem_keys rest a h.1
    · simp [mapDelete, mapGet, ha, ih h.2]

theorem mem_keys_mapSet (m : List (α × β)) (k a : α) (v : β)
    (h : a ∈ (mapSet m k v).map Prod.fst) : a ∈ m.map Prod.fst ∨ a = k := by
  induction m with
  | nil =>
    right
    simpa [mapSet] using h
  | cons p rest ih =>
    obtain ⟨k', v'⟩ := p
    by_cases hk : k' = k
    · subst hk
      rw [show mapSet ((k', v') :: rest) k' v = (k', v) :: rest from by simp [mapSet]] at h
      simp only [List.map_cons, List.mem_cons] at h
      simp only [List.map_cons, List.mem_cons]
      exact Or.inl h
    · simp only [mapSet, if_neg hk, List.map_cons, List.mem_cons] at h
      simp only [List.map_cons, List.mem_cons]
      rcases h with h | h
      · exact Or.inl (Or.inl h)
      · rcases ih h with h' | h'
        · exact Or.inl (Or.inr h')
        · exact Or.inr h'

theorem keyNodup_mapSet (m : List (α × β)) (k : α) (v : β) (h : keyNodup m) :
    keyNodup (mapSet m k v) := by
  induction m with
  | nil => simp [mapSet, keyNodup]
  | cons p rest ih =>
    obtain ⟨k', v'⟩ := p
    simp only [keyNodup, List.map_cons, List.nodup_cons] at h
    by_cases hk : k' = k
    · subst hk
      rw [show mapSet ((k', v') :: rest) k' v = (k', v) :: rest from by simp [mapSet]]
      simp only [keyNodup, List.map_cons, List.nodup_cons]
      exact h
    · simp only [keyNodup, mapSet, if_neg hk, List.map_cons, List.nodup_cons]
      refine ⟨?_, ih h.2⟩
      intro hmem
      rcases mem_keys_mapSet rest k k' v hmem with h' | h'
      · exact h.1 h'
      · exact hk h'

theorem keys_mapDelete_sublist (m : List (α × β)) (k : α) :
    ((mapDelete m k).map Prod.fst).Sublist (m.map Prod.fst) := by
  induction m with
  | nil => simp [mapDelete]
  | cons p rest ih =>
    obtain ⟨a, b⟩ := p
    by_cases ha : a = k
    · simp [mapDelete, ha]
    · simpa [mapDelete, ha] using ih.cons₂ a

theorem keyNodup_mapDelete (m : List (α × β)) (k : α) (h : keyNodup m) :
    keyNodup (mapDelete m k) :=
  (keys_mapDelete_sublist m k).nodup h

theorem mem_setAdd (s : List α) (x y : α) : y ∈ setAdd s x ↔ y ∈ s ∨ y = x := by
  unfold setAdd
  by_cases h : x ∈ s
  · simp only [if_pos h]
    constructor
    · exact Or.inl
    · rintro (hy | rfl)
      · exact hy
      · exact h
  · simp [if_neg h]

theorem nodup_setAdd (s : List α) (x : α) (h : s.Nodup) : (setAdd s x).Nodup := by
  by_cases hx : x ∈ s
  · simpa [setAdd, hx] using h
  · simp only [setAdd, if_neg hx]
    refine List.Nodup.append h (by simp) ?_
    intro a ha hmem
    rw [List.mem_singleton] at hmem
    subst hmem
    exact hx ha

theorem setDelete_sublist (s : List α) (x : α) : (setDelete s x).Sublist s := by
  induction s with
  | nil => simp [setDelete]
  | cons y rest ih =>
    by_cases hy : y = x
    · simp [setDelete, hy]
    · simpa [setDelete, hy] using ih.cons₂ y

theorem nodup_setDelete (s : List α) (x : α) (h : s.Nodup) : (setDelete s x).Nodup :=
  (setDelete_sublist s x).nodup h

theorem mem_setDelete (s : List α) (x y : α) (hnd : s.Nodup) :
    y ∈ setDelete s x ↔ y ∈ s ∧ y ≠ x := by
  induction s with
  | nil => simp [setDelete]
  | cons z rest ih =>
    rw [List.nodup_cons] at hnd
    by_cases hz : z = x
    · subst hz
      simp only [setDelete, if_pos rfl]
      constructor
      · intro hy
        refine ⟨List.mem_cons_of_mem _ hy, ?_⟩
        intro e
        exact hnd.1 (e ▸ hy)
      · rintro ⟨hy, hne⟩
        rcases List.mem_cons.mp hy with rfl | hy
        · exact absurd rfl hne
        · exact hy
    · simp only [setDelete, if_neg hz]
      constructor
      · intro hy
        rcases List.mem_cons.mp hy with rfl | hy
        · exact ⟨List.mem_cons_self _ _, hz⟩
        · have h2 := (ih hnd.2).mp hy
          exact ⟨List.mem_cons_of_mem _ h2.1, h2.2⟩
      · rintro ⟨hy, hne⟩
        rcases List.mem_cons.mp hy with rfl | hy
        · exact List.mem_cons_self _ _
        · exact List.mem_cons_of_mem _ ((ih hnd.2).mpr ⟨hy, hne⟩)

theorem mem_of_mem_setDelete (s : List α) (x y : α) (h : y ∈ setDelete s x) : y ∈ s :=
  (setDelete_sublist s x).mem h

theorem eq_of_setDelete_eq_nil (s : List α) (x y : α)
    (h : setDelete s x = []) (hy : y ∈ s) : y = x := by
  cases s with
  | nil => cases hy
  | cons z rest =>
    by_cases hz : z = x
    · subst hz
      simp only [setDelete, if_pos rfl] at h
      subst h
      rcases List.mem_cons.mp hy with rfl | hy
      · rfl
      · cases hy
    · simp [setDelete, hz] at h

end MapSet

/-! ## DiscoveryManager (src/src/managers/discovery.manager.js)

The registry state consists of the primary map `services`, the capability
index `servicesByCapability` (capability to set of service ids) and the name
index `servicesByName` (service name to id). -/

/-- A `ServiceInfo` record, as received in a join notification. -/
structure ServiceInfo where
  id : String
  name : String
  type : String
  capabilities : List String
  metadata : List (String × String)
deriving DecidableEq

/-- The mutable state of a `DiscoveryManager`. -/
structure DiscoveryState where
  services : List (String × ServiceInfo)
  servicesByCapability : List (String × List String)
  servicesByName : List (String × String)
deriving DecidableEq

/-- The state built by the `DiscoveryManager` constructor: all three maps
empty. -/
def emptyDiscovery : DiscoveryState := ⟨[], [], []⟩

namespace DiscoveryManager

/-- One iteration of the capability-indexing loop in `handleServiceJoined`:
create the bucket if absent, then add the id to it. -/
def addCapability (byCap : List (String × List String)) (capability serviceId : String) :
    List (String × List String) :=
  let bucket := (mapGet byCap capability).getD []
  mapSet byCap capability (setAdd bucket serviceId)

/-- `handleServiceJoined(serviceInfo)`: store the record, point the name index
at it, and add its id to the bucket of every advertised capability.  Note that
nothing is removed: a previous record under the same id leaves its entries in
place. -/
def handleServiceJoined (st : DiscoveryState) (serviceInfo : ServiceInfo) : DiscoveryState :=
  { services := mapSet st.services serviceInfo.id serviceInfo
    servicesByName := mapSet st.servicesByName serviceInfo.name serviceInfo.id
    servicesByCapability :=
      serviceInfo.capabilities.foldl
        (fun byCap capability => addCapability byCap capability serviceInfo.id)
        st.servicesByCapability }

/-- One iteration of the capability-removal loop in `handleServiceLeft`:
remove the id from the bucket when the bucket exists, and drop the bucket when
it becomes empty. -/
def removeCapability (byCap : List (String × List String)) (capability serviceId : String) :
    List (String × List String) :=
  match mapGet byCap capability with
  | none => byCap
  | some bucket =>
      let bucket2 := setDelete bucket serviceId
      if bucket2.length = 0 then mapDelete byCap capability
      else mapSet byCap capability bucket2

/-- `handleServiceLeft(serviceId)`: no-op when the id is unknown; otherwise
remove the record, delete the name-index entry for the record name
(unconditionally), and remove the id from the bucket of each of the record
capabilities. -/
def handleServiceLeft (st : DiscoveryState) (serviceId : String) : DiscoveryState :=
  match mapGet st.services serviceId with
  | none => st
  | some serviceInfo =>
      { services := mapDelete st.services serviceId
        servicesByName := mapDelete st.servicesByName serviceInfo.name
        servicesByCapability :=
          serviceInfo.capabilities.foldl
            (fun byCap capability => removeCapability byCap capability serviceId)
            st.servicesByCapability }

/-- `findServicesByCapability(capability)`: map the ids of the bucket through
the primary map and drop the misses (the `.filter(Boolean)` step). -/
def findServicesByCapability (st : DiscoveryState) (capability : String) : List ServiceInfo :=
  let serviceIds := (mapGet st.servicesByCapability capability).getD []
  serviceIds.filterMap (fun id => mapGet st.services id)

/-- `findServiceByName(name)`. -/
def findServiceByName (st : DiscoveryState) (name : String) : Option ServiceInfo :=
  match mapGet st.servicesByName name with
  | some serviceId => mapGet st.services serviceId
  | none => none

/-- `findServiceById(id)`. -/
def findServiceById (st : DiscoveryState) (id : String) : Option ServiceInfo :=
  mapGet st.services id

end DiscoveryManager

/-- An externally observable registry operation: a join or a leave
notification surfaced by the transport. -/
inductive DiscoveryOp where
  | join (serviceInfo : ServiceInfo)
  | leave (serviceId : String)
deriving DecidableEq

/-- Apply one operation to the registry state. -/
def applyDiscoveryOp (st : DiscoveryState) : DiscoveryOp → DiscoveryState
  | .join serviceInfo => DiscoveryManager.handleServiceJoined st serviceInfo
  | .leave serviceId => DiscoveryManager.handleServiceLeft st serviceId

/-- Run a sequence of join/leave operations from a given state. -/
def runDiscoveryFrom (st : DiscoveryState) (ops : List DiscoveryOp) : DiscoveryState :=
  ops.foldl applyDiscoveryOp st

/-- Run a sequence of join/leave operations from the initial (empty) state. -/
def runDiscovery (ops : List DiscoveryOp) : DiscoveryState :=
  runDiscoveryFrom emptyDiscovery ops

/-- Membership of an id in the bucket of a capability. -/
def bucketMem (byCap : List (String × List String)) (capability serviceId : String) : Prop :=
  ∃ bucket, mapGet byCap capability = some bucket ∧ serviceId ∈ bucket

/-- The capability-index consistency invariant of the specification: an id is
in the bucket for capability `c` iff the stored record under that id lists `c`. -/
def CapInvariant (st : DiscoveryState) : Prop :=
  ∀ serviceId capability,
    bucketMem st.servicesByCapability capability serviceId ↔
      ∃ serviceInfo, mapGet st.services serviceId = some serviceInfo ∧
        capability ∈ serviceInfo.capabilities

/-- Structural well-formedness of a capability index: distinct keys and
duplicate-free buckets (automatic for JS `Map`/`Set` objects). -/
def bucketsWF (byCap : List (String × List String)) : Prop :=
  keyNodup byCap ∧
    ∀ capability bucket, mapGet byCap capability = some bucket → bucket.Nodup

/-- Structural well-formedness of a registry state: distinct keys in each map
and duplicate-free buckets.  This holds automatically for the JS `Map`/`Set`
objects and is preserved by every operation. -/
def DiscoveryWF (st : DiscoveryState) : Prop :=
  keyNodup st.services ∧ keyNodup st.servicesByName ∧ bucketsWF st.servicesByCapability

/-- A run in which every join concerns an id that is not currently registered
(fresh ids; an id may be reused after a leave). -/
def FreshRun (st : DiscoveryState) : List DiscoveryOp → Prop
  | [] => True
  | .join serviceInfo :: rest =>
      mapGet st.services serviceInfo.id = none ∧
        FreshRun (applyDiscoveryOp st (.join serviceInfo)) rest
  | .leave serviceId :: rest =>
      FreshRun (applyDiscoveryOp st (.leave serviceId)) rest

theorem bucketMem_iff_mem_getD (byCap : List (String × List String)) (cap id : String) :
    bucketMem byCap cap id ↔ id ∈ (mapGet byCap cap).getD [] := by
  unfold bucketMem
  cases h : mapGet byCap cap with
  | none => simp
  | some bucket => simp

theorem addCapability_eq (byCap : List (String × List String)) (c jid : String) :
    DiscoveryManager.addCapability byCap c jid
      = mapSet byCap c (setAdd ((mapGet byCap c).getD []) jid) := rfl

theorem bucketMem_addCapability (byCap : List (String × List String)) (c jid cap id : String) :
    bucketMem (DiscoveryManager.addCapability byCap c jid) cap id ↔
      bucketMem byCap cap id ∨ (id = jid ∧ cap = c) := by
  rw [bucketMem_iff_mem_getD, bucketMem_iff_mem_getD, addCapability_eq]
  by_cases hc : cap = c
  · subst hc
    rw [mapGet_mapSet_self, Option.getD_some, mem_setAdd]
    tauto
  · rw [mapGet_mapSet_ne _ _ _ _ hc]
    constructor
    · exact Or.inl
    · rintro (h | ⟨-, h⟩)
      · exact h
      · exact absurd h hc

theorem bucketsWF_addCapability (byCap : List (String × List String)) (c jid : String)
    (hwf : bucketsWF byCap) : bucketsWF (DiscoveryManager.addCapability byCap c jid) := by
  rw [addCapability_eq]
  refine ⟨keyNodup_mapSet _ _ _ hwf.1, ?_⟩
  intro cap bucket hget
  by_cases hc : cap = c
  · subst hc
    rw [mapGet_mapSet_self, Option.some.injEq] at hget
    subst hget
    refine nodup_setAdd _ _ ?_
    cases hb : mapGet byCap cap with
    | none => simp
    | some bucket0 => simpa using hwf.2 cap bucket0 hb
  · rw [mapGet_mapSet_ne _ _ _ _ hc] at hget
    exact hwf.2 cap bucket hget

theorem bucketMem_foldl_addCapability (caps : List String) (byCap : List (String × List String))
    (jid cap id : String) :
    bucketMem (caps.foldl (fun bc c => DiscoveryManager.addCapability bc c jid) byCap) cap id ↔
      bucketMem byCap cap id ∨ (id = jid ∧ cap ∈ caps) := by
  induction caps generalizing byCap with
  | nil => simp
  | cons c rest ih =>
    rw [List.foldl_cons, ih, bucketMem_addCapability]
    simp only [List.mem_cons]
    tauto

theorem bucketsWF_foldl_addCapability (caps : List String) (byCap : List (String × List String))
    (jid : String) (hwf : bucketsWF byCap) :
    bucketsWF (caps.foldl (fun bc c => DiscoveryManager.addCapability bc c jid) byCap) := by
  induction caps generalizing byCap with
  | nil => exact hwf
  | cons c rest ih => exact ih _ (bucketsWF_addCapability _ _ _ hwf)

theorem bucketMem_removeCapability (byCap : List (String × List String)) (c rid cap id : String)
    (hwf : bucketsWF byCap) :
    bucketMem (DiscoveryManager.removeCapability byCap c rid) cap id ↔
      bucketMem byCap cap id ∧ ¬(id = rid ∧ cap = c) := by
  rw [bucketMem_iff_mem_getD, bucketMem_iff_mem_getD]
  unfold DiscoveryManager.removeCapability
  cases hg : mapGet byCap c with
  | none =>
    simp only
    by_cases hc : cap = c
    · subst hc
      rw [hg]
      simp
    · tauto
  | some bucket =>
    simp only
    by_cases hlen : (setDelete bucket rid).length = 0
    · rw [if_pos hlen]
      rw [List.length_eq_zero] at hlen
      by_cases hc : cap = c
      · subst hc
        rw [mapGet_mapDelete_self _ _ hwf.1, hg]
        simp only [Option.getD_none, Option.getD_some, List.not_mem_nil, false_iff]
        rintro ⟨hmem, hne⟩
        exact hne ⟨eq_of_setDelete_eq_nil bucket rid id hlen hmem, by trivial⟩
      · rw [mapGet_mapDelete_ne _ _ _ hc]
        tauto
    · rw [if_neg hlen]
      by_cases hc : cap = c
      · subst hc
        rw [mapGet_mapSet_self, hg]
        simp only [Option.getD_some]
        rw [mem_setDelete _ _ _ (hwf.2 cap bucket hg)]
        tauto
      · rw [mapGet_mapSet_ne _ _ _ _ hc]
        tauto

theorem bucketsWF_removeCapability (byCap : List (String × List String)) (c rid : String)
    (hwf : bucketsWF byCap) : bucketsWF (DiscoveryManager.removeCapability byCap c rid) := by
  unfold DiscoveryManager.removeCapability
  cases hg : mapGet byCap c with
  | none => exact hwf
  | some bucket =>
    simp only
    by_cases hlen : (setDelete bucket rid).length = 0
    · rw [if_pos hlen]
      refine ⟨keyNodup_mapDelete _ _ hwf.1, ?_⟩
      intro cap b hb
      by_cases hc : cap = c
      · subst hc
        rw [mapGet_mapDelete_self _ _ hwf.1] at hb
        cases hb
      · rw [mapGet_mapDelete_ne _ _ _ hc] at hb
        exact hwf.2 cap b hb
    · rw [if_neg hlen]
      refine ⟨keyNodup_mapSet _ _ _ hwf.1, ?_⟩
      intro cap b hb
      by_cases hc : cap = c
      · subst hc
        rw [mapGet_mapSet_self, Option.some.injEq] at hb
        subst hb
        exact nodup_setDelete _ _ (hwf.2 cap bucket hg)
      · rw [mapGet_mapSet_ne _ _ _ _ hc] at hb
        exact hwf.2 cap b hb

theorem foldl_removeCapability_spec (caps : List String) (byCap : List (String × List String))
    (rid : String) (hwf : bucketsWF byCap) :
    bucketsWF (caps.foldl (fun bc c => DiscoveryManager.removeCapability bc c rid) byCap) ∧
      ∀ cap id,
        bucketMem (caps.foldl (fun bc c => DiscoveryManager.removeCapability bc c rid) byCap)
            cap id ↔
          bucketMem byCap cap id ∧ ¬(id = rid ∧ cap ∈ caps) := by
  induction caps generalizing byCap with
  | nil => simpa using hwf
  | cons c rest ih =>
    rw [List.foldl_cons]
    obtain ⟨ihwf, ihmem⟩ := ih (DiscoveryManager.removeCapability byCap c rid)
      (bucketsWF_removeCapability _ _ _ hwf)
    refine ⟨ihwf, ?_⟩
    intro cap id
    rw [ihmem cap id, bucketMem_removeCapability _ _ _ _ _ hwf]
    simp only [List.mem_cons]
    tauto

theorem handleServiceJoined_preserves (st : DiscoveryState) (serviceInfo : ServiceInfo)
    (hwf : DiscoveryWF st) (hinv : CapInvariant st)
    (hfresh : mapGet st.services serviceInfo.id = none) :
    DiscoveryWF (DiscoveryManager.handleServiceJoined st serviceInfo) ∧
      CapInvariant (DiscoveryManager.handleServiceJoined st serviceInfo) := by
  obtain ⟨hs, hn, hb⟩ := hwf
  refine ⟨⟨keyNodup_mapSet _ _ _ hs, keyNodup_mapSet _ _ _ hn,
    bucketsWF_foldl_addCapability _ _ _ hb⟩, ?_⟩
  intro sid cap
  show bucketMem (serviceInfo.capabilities.foldl
      (fun byCap capability => DiscoveryManager.addCapability byCap capability serviceInfo.id)
      st.servicesByCapability) cap sid ↔
    ∃ si, mapGet (mapSet st.services serviceInfo.id serviceInfo) sid = some si ∧
      cap ∈ si.capabilities
  rw [bucketMem_foldl_addCapability, mapGet_mapSet]
  by_cases hid : sid = serviceInfo.id
  · subst hid
    rw [if_pos rfl]
    have hold : ¬ bucketMem st.servicesByCapability cap serviceInfo.id := by
      intro hbm
      rcases (hinv serviceInfo.id cap).mp hbm with ⟨si, hsi, -⟩
      rw [hfresh] at hsi
      cases hsi
    constructor
    · rintro (h | ⟨-, h⟩)
      · exact absurd h hold
      · exact ⟨serviceInfo, rfl, h⟩
    · rintro ⟨si, hsi, hcap⟩
      rw [Option.some.injEq] at hsi
      subst hsi
      exact Or.inr ⟨rfl, hcap⟩
  · rw [if_neg hid]
    constructor
    · rintro (h | ⟨h, -⟩)
      · exact (hinv sid cap).mp h
      · exact absurd h hid
    · intro h
      exact Or.inl ((hinv sid cap).mpr h)

theorem handleServiceLeft_preserves (st : DiscoveryState) (serviceId : String)
    (hwf : DiscoveryWF st) (hinv : CapInvariant st) :
    DiscoveryWF (DiscoveryManager.handleServiceLeft st serviceId) ∧
      CapInvariant (DiscoveryManager.handleServiceLeft st serviceId) := by
  obtain ⟨hs, hn, hb⟩ := hwf
  unfold DiscoveryManager.handleServiceLeft
  cases hg : mapGet st.services serviceId with
  | none => exact ⟨⟨hs, hn, hb⟩, hinv⟩
  | some serviceInfo =>
    obtain ⟨hfwf, hfmem⟩ := foldl_removeCapability_spec serviceInfo.capabilities
      st.servicesByCapability serviceId hb
    refine ⟨⟨keyNodup_mapDelete _ _ hs, keyNodup_mapDelete _ _ hn, hfwf⟩, ?_⟩
    intro sid cap
    show bucketMem (serviceInfo.capabilities.foldl
        (fun byCap capability => DiscoveryManager.removeCapability byCap capability serviceId)
        st.servicesByCapability) cap sid ↔
      ∃ si, mapGet (mapDelete st.services serviceId) sid = some si ∧ cap ∈ si.capabilities
    rw [hfmem cap sid]
    by_cases hid : sid = serviceId
    · subst hid
      rw [mapGet_mapDelete_self _ _ hs]
      have hbm : bucketMem st.servicesByCapability cap sid ↔
          cap ∈ serviceInfo.capabilities := by
        rw [hinv sid cap]
        constructor
        · rintro ⟨si, hsi, hcap⟩
          rw [hg, Option.some.injEq] at hsi
          subst hsi
          exact hcap
        · intro hcap
          exact ⟨serviceInfo, hg, hcap⟩
      rw [hbm]
      constructor
      · rintro ⟨hcap, hne⟩
        exact absurd ⟨rfl, hcap⟩ hne
      · rintro ⟨si, hsi, -⟩
        cases hsi
    · rw [mapGet_mapDelete_ne _ _ _ hid]
      constructor
      · rintro ⟨h, -⟩
        exact (hinv sid cap).mp h
      · intro h
        exact ⟨(hinv sid cap).mpr h, fun hc => hid hc.1⟩

theorem discoveryWF_empty : DiscoveryWF emptyDiscovery :=
  ⟨List.nodup_nil, List.nodup_nil, List.nodup_nil, fun _ _ h => by cases h⟩

theorem capInvariant_empty : CapInvariant emptyDiscovery := by
  intro id cap
  constructor
  · rintro ⟨b, hb, -⟩
    cases hb
  · rintro ⟨si, hsi, -⟩
    cases hsi

theorem runDiscoveryFrom_invariant (ops : List DiscoveryOp) (st : DiscoveryState)
    (hwf : DiscoveryWF st) (hinv : CapInvariant st) (hfr : FreshRun st ops) :
    DiscoveryWF (runDiscoveryFrom st ops) ∧ CapInvariant (runDiscoveryFrom st ops) := by
  induction ops generalizing st with
  | nil => exact ⟨hwf, hinv⟩
  | cons op rest ih =>
    cases op with
    | join serviceInfo =>
      obtain ⟨hfresh, hfr2⟩ := hfr
      obtain ⟨hwf2, hinv2⟩ := handleServiceJoined_preserves st serviceInfo hwf hinv hfresh
      exact ih (applyDiscoveryOp st (.join serviceInfo)) hwf2 hinv2 hfr2
    | leave serviceId =>
      obtain ⟨hwf2, hinv2⟩ := handleServiceLeft_preserves st serviceId hwf hinv
      exact ih (applyDiscoveryOp st (.leave serviceId)) hwf2 hinv2 hfr

/-- The re-join sequence of the C1 counterexample: the same id joins again with
the capability removed from its record. -/
def rejoinOps : List DiscoveryOp :=
  [.join ⟨"a", "n", "t", ["x"], []⟩, .join ⟨"a", "n", "t", [], []⟩]

/-- C1 counterexample: after `join({id:"a", capabilities:["x"]})` followed by a
re-join `join({id:"a", capabilities:[]})`, the id `"a"` is still in the bucket
for capability `"x"` although the stored record no longer lists `"x"`:
`handleServiceJoined` never removes the stale entries of the previous version,
so the capability/name index consistency claimed by the specification fails. -/
theorem capInvariant_rejoin_counterexample : ¬ CapInvariant (runDiscovery rejoinOps) := by
  intro h
  have hb : bucketMem (runDiscovery rejoinOps).servicesByCapability "x" "a" :=
    ⟨["a"], by decide, by decide⟩
  rcases (h "a" "x").mp hb with ⟨si, hsi, hcap⟩
  have h2 : mapGet (runDiscovery rejoinOps).services "a"
      = some ⟨"a", "n", "t", [], []⟩ := by decide
  rw [h2, Option.some.injEq] at hsi
  subst hsi
  simp at hcap

/-- C1 (amended): for every sequence of join and leave operations in which each
join concerns an id that is not currently registered, the registry satisfies the
capability-index consistency invariant: an id is present in the bucket for
capability `c` iff the record currently stored under that id lists `c`.  (The
fresh-id restriction is necessary: re-joining an existing id with a changed
record does NOT remove the previous version's stale capability and name
entries, as the counterexample shows.) -/
theorem capInvariant_freshJoin_runs (ops : List DiscoveryOp)
    (hfr : FreshRun emptyDiscovery ops) : CapInvariant (runDiscovery ops) :=
  (runDiscoveryFrom_invariant ops emptyDiscovery discoveryWF_empty capInvariant_empty hfr).2

/-- A concrete fresh-id run exercising joins and a leave. -/
def freshOps : List DiscoveryOp :=
  [.join ⟨"a", "na", "t", ["x"], []⟩, .join ⟨"b", "nb", "t", ["x", "y"], []⟩, .leave "a"]

/-- Witness for `capInvariant_freshJoin_runs` at the concrete run `freshOps`. -/
theorem capInvariant_freshJoin_runs_witness :
    FreshRun emptyDiscovery freshOps ∧ CapInvariant (runDiscovery freshOps) := by
  have hfr : FreshRun emptyDiscovery freshOps := ⟨by decide, by decide, trivial⟩
  exact ⟨hfr, capInvariant_freshJoin_runs freshOps hfr⟩

/-- Two joins with distinct ids but the same name, followed by a leave of the
first id: the scenario of claim C5. -/
def nameOps : List DiscoveryOp :=
  [.join ⟨"a", "n", "t", [], []⟩, .join ⟨"b", "n", "t", [], []⟩]

/-- C5 counterexample: after `join({id:"a", name:"n"})`, `join({id:"b",
name:"n"})` and `leave("a")`, the name index does NOT still map `"n"` to
`"b"`: `handleServiceLeft` deletes the name entry of the departed record
unconditionally, without checking that it still points at the departing id. -/
theorem nameIndex_leave_counterexample :
    ¬ mapGet (DiscoveryManager.handleServiceLeft (runDiscovery nameOps) "a").servicesByName "n"
        = some "b" := by decide

/-- C5 (amended): for every known id, `handleServiceLeft` removes the
name-index entry for the departed record name unconditionally — even when that
entry currently points at a different id; afterwards the name resolves to
nothing. -/
theorem handleServiceLeft_deletes_name (st : DiscoveryState) (serviceId : String)
    (serviceInfo : ServiceInfo) (hn : keyNodup st.servicesByName)
    (hget : mapGet st.services serviceId = some serviceInfo) :
    mapGet (DiscoveryManager.handleServiceLeft st serviceId).servicesByName serviceInfo.name
      = none := by
  unfold DiscoveryManager.handleServiceLeft
  rw [hget]
  exact mapGet_mapDelete_self _ _ hn

/-- Witness for `handleServiceLeft_deletes_name` at the `nameOps` scenario. -/
theorem handleServiceLeft_deletes_name_witness :
    keyNodup (runDiscovery nameOps).servicesByName ∧
      mapGet (runDiscovery nameOps).services "a" = some ⟨"a", "n", "t", [], []⟩ ∧
      mapGet (DiscoveryManager.handleServiceLeft (runDiscovery nameOps) "a").servicesByName
        "n" = none :=
  ⟨by unfold keyNodup; decide, by decide,
    handleServiceLeft_deletes_name (runDiscovery nameOps) "a" ⟨"a", "n", "t", [], []⟩
      (by unfold keyNodup; decide) (by decide)⟩

/-- C10: every element of the list returned by `findServicesByCapability` is a
record currently stored in the primary `services` map; ids present in a bucket
without a record are dropped by the `.filter(Boolean)` step, so the result
never contains dangling entries. -/
theorem findServicesByCapability_mem_services (st : DiscoveryState) (capability : String)
    (serviceInfo : ServiceInfo)
    (h : serviceInfo ∈ DiscoveryManager.findServicesByCapability st capability) :
    ∃ serviceId, mapGet st.services serviceId = some serviceInfo := by
  unfold DiscoveryManager.findServicesByCapability at h
  rcases List.mem_filterMap.mp h with ⟨serviceId, -, hid⟩
  exact ⟨serviceId, hid⟩

/-- Witness for `findServicesByCapability_mem_services` on a one-record state. -/
theorem findServicesByCapability_mem_services_witness :
    (⟨"a", "na", "t", ["x"], []⟩ : ServiceInfo) ∈
        DiscoveryManager.findServicesByCapability
          (runDiscovery [.join ⟨"a", "na", "t", ["x"], []⟩]) "x" ∧
      ∃ serviceId, mapGet (runDiscovery [.join ⟨"a", "na", "t", ["x"], []⟩]).services serviceId
        = some ⟨"a", "na", "t", ["x"], []⟩ :=
  ⟨by decide, findServicesByCapability_mem_services _ "x" _ (by decide)⟩

/-! ## TopicManager (src/managers/topic.manager.js)

Topic handlers are JS function objects compared by reference; we model them as
opaque numeric identifiers.  Outcomes of awaited broker requests are passed in
as a `brokerOk` flag (`true`: the request resolved; `false`: it rejected, the
catch block logs and rethrows). -/

/-- An outgoing request issued through `this.service.client.request`. -/
inductive BrokerCall where
  | subscribe (topic : String)
  | unsubscribe (topic : String)
  | publish (topic : String) (data : String)
  | request (target : String) (method : String) (data : String) (timeout : Nat)
  | notify (target : String) (type : String) (data : String)
deriving DecidableEq

/-- The value stored in `subscriptions`: `{timestamp, handler}`. -/
structure SubEntry where
  timestamp : Nat
  handler : Nat
deriving DecidableEq

/-- The mutable state of a `TopicManager`: the `subscriptions` map and the
per-topic handler-set map. -/
structure TopicState where
  subscriptions : List (String × SubEntry)
  handlers : List (String × List Nat)
deriving DecidableEq

/-- Metadata passed as the second argument to a topic handler. -/
structure HandlerMeta where
  topic : String
  timestamp : Nat
  publisher : String
deriving DecidableEq

/-- An inbound `broker:message` event: topic, data and metadata. -/
structure InboundMessage where
  topic : String
  data : String
  timestamp : Nat
  publisher : String
deriving DecidableEq

/-- One handler invocation performed during dispatch: the handler together
with the data and metadata passed to it. -/
structure Invocation where
  handler : Nat
  data : String
  meta : HandlerMeta
deriving DecidableEq

namespace TopicManager

/-- `subscribe(topic, handler)`: issue `broker:subscribe` first; when it
resolves, create the handler set if needed, add the handler and overwrite the
subscription entry; when it rejects the error is logged and rethrown with no
local mutation.  `now` stands for `Date.now()`.  Returns the new state, the
broker calls issued, and whether the call resolved. -/
def subscribe (st : TopicState) (topic : String) (handler : Nat) (now : Nat)
    (brokerOk : Bool) : TopicState × List BrokerCall × Bool :=
  if brokerOk then
    let hs := (mapGet st.handlers topic).getD []
    ({ handlers := mapSet st.handlers topic (setAdd hs handler)
       subscriptions := mapSet st.subscriptions topic ⟨now, handler⟩ },
      [BrokerCall.subscribe topic], true)
  else
    (st, [BrokerCall.subscribe topic], false)

/-- The private `#unsubscribeFromBroker(topic)`: issue `broker:unsubscribe` and
on success delete the topic from both tables; on failure the tables are left
untouched and the error is rethrown. -/
def unsubscribeFromBroker (st : TopicState) (topic : String) (brokerOk : Bool) :
    TopicState × List BrokerCall × Bool :=
  if brokerOk then
    ({ handlers := mapDelete st.handlers topic
       subscriptions := mapDelete st.subscriptions topic },
      [BrokerCall.unsubscribe topic], true)
  else
    (st, [BrokerCall.unsubscribe topic], false)

/-- `unsubscribe(topic, handler = null)`: with a handler, remove it from the
topic set in place and fall through to the broker unsubscribe only when the set
became empty; with no handler, unconditionally unsubscribe from the broker and
drop the whole topic entry. -/
def unsubscribe (st : TopicState) (topic : String) (handler : Option Nat)
    (brokerOk : Bool) : TopicState × List BrokerCall × Bool :=
  match handler with
  | some h =>
      match mapGet st.handlers topic with
      | some hs =>
          let hs2 := setDelete hs h
          let st2 : TopicState := { st with handlers := mapSet st.handlers topic hs2 }
          if hs2.length = 0 then unsubscribeFromBroker st2 topic brokerOk
          else (st2, [], true)
      | none => (st, [], true)
  | none => unsubscribeFromBroker st topic brokerOk

/-- `publish(topic, data)`: forward to `broker:publish`. -/
def publish (st : TopicState) (topic data : String) (brokerOk : Bool) :
    TopicState × List BrokerCall × Bool :=
  (st, [BrokerCall.publish topic data], brokerOk)

/-- One iteration of the dispatch loop of the `broker:message` listener: the
handler is invoked; when it throws (`throws h`) the error is caught and logged
and the loop continues. -/
def dispatchStep (msg : InboundMessage) (throws : Nat → Bool)
    (acc : List Invocation × List String) (h : Nat) : List Invocation × List String :=
  let inv : Invocation := ⟨h, msg.data, ⟨msg.topic, msg.timestamp, msg.publisher⟩⟩
  if throws h then (acc.1 ++ [inv], acc.2 ++ ["Error in topic handler for " ++ msg.topic])
  else (acc.1 ++ [inv], acc.2)

/-- The `broker:message` listener installed by `#setupMessageHandlers`: look up
the handler set for the topic (no set: the message is silently dropped) and
invoke every handler with `(data, {topic, timestamp, publisher})`.  Returns the
invocations performed and the handler errors logged. -/
def dispatchMessage (st : TopicState) (msg : InboundMessage) (throws : Nat → Bool) :
    List Invocation × List String :=
  match mapGet st.handlers msg.topic with
  | none => ([], [])
  | some hs => hs.foldl (dispatchStep msg throws) ([], [])

/-- `cleanup()`: full (no-handler) unsubscribe of every currently subscribed
topic, with all broker calls succeeding. -/
def cleanup (st : TopicState) : TopicState × List BrokerCall :=
  (st.subscriptions.map Prod.fst).foldl
    (fun acc topic =>
      let r := unsubscribe acc.1 topic none true
      (r.1, acc.2 ++ r.2.1))
    (st, [])

end TopicManager

theorem foldl_dispatchStep_fst (hs : List Nat) (msg : InboundMessage) (throws : Nat → Bool)
    (acc : List Invocation × List String) :
    (hs.foldl (TopicManager.dispatchStep msg throws) acc).1
      = acc.1 ++ hs.map
          (fun h => (⟨h, msg.data, ⟨msg.topic, msg.timestamp, msg.publisher⟩⟩ : Invocation)) := by
  induction hs generalizing acc with
  | nil => simp
  | cons h rest ih =>
    rw [List.foldl_cons, ih]
    by_cases ht : throws h <;> simp [TopicManager.dispatchStep, ht]

/-- A topic state in which handler 1 already holds a subscription for "t". -/
def existingSubState : TopicState := ⟨[("t", ⟨0, 1⟩)], [("t", [1])]⟩

/-- C2 counterexample: even though a local subscription for "t" already exists,
`subscribe("t", h2)` still issues a `broker:subscribe` request, contradicting
the claim that no remote call is made when a subscription exists. -/
theorem subscribe_existing_counterexample :
    ¬ (TopicManager.subscribe existingSubState "t" 2 7 true).2.1 = [] := by decide

/-- C2 (amended): `subscribe(topic, handler)` ALWAYS issues exactly one remote
`broker:subscribe` request, whether or not a local subscription for the topic
already exists; only after the request resolves is the handler added to the
(possibly pre-existing) handler set, and when the request rejects no local
state is created. -/
theorem subscribe_always_requests (st : TopicState) (topic : String) (handler : Nat)
    (now : Nat) (brokerOk : Bool) :
    (TopicManager.subscribe st topic handler now brokerOk).2.1
        = [BrokerCall.subscribe topic] ∧
      ((TopicManager.subscribe st topic handler now brokerOk).2.2 = true →
        mapGet (TopicManager.subscribe st topic handler now brokerOk).1.handlers topic
          = some (setAdd ((mapGet st.handlers topic).getD []) handler)) ∧
      (brokerOk = false →
        (TopicManager.subscribe st topic handler now brokerOk).1 = st) := by
  unfold TopicManager.subscribe
  cases brokerOk with
  | false => simp
  | true => simp [mapGet_mapSet_self]

/-- Witness for `subscribe_always_requests` on a state that already has a
subscription for the topic. -/
theorem subscribe_always_requests_witness :
    (TopicManager.subscribe existingSubState "t" 2 7 true).2.2 = true ∧
      mapGet (TopicManager.subscribe existingSubState "t" 2 7 true).1.handlers "t"
        = some (setAdd ((mapGet existingSubState.handlers "t").getD []) 2) :=
  ⟨by decide, (subscribe_always_requests existingSubState "t" 2 7 true).2.1 (by decide)⟩

/-- C8: the no-handler form `unsubscribe(topic)` unconditionally issues a
`broker:unsubscribe` request and deletes the topic entry together with all its
handlers; a subsequent dispatch for that topic invokes no handler at all. -/
theorem unsubscribe_full_removes_all (st : TopicState) (topic : String)
    (hnd : keyNodup st.handlers) (hns : keyNodup st.subscriptions) :
    (TopicManager.unsubscribe st topic none true).2.1 = [BrokerCall.unsubscribe topic] ∧
      mapGet (TopicManager.unsubscribe st topic none true).1.handlers topic = none ∧
      mapGet (TopicManager.unsubscribe st topic none true).1.subscriptions topic = none ∧
      ∀ (msg : InboundMessage) (throws : Nat → Bool), msg.topic = topic →
        TopicManager.dispatchMessage (TopicManager.unsubscribe st topic none true).1 msg throws
          = ([], []) := by
  refine ⟨rfl, ?_, ?_, ?_⟩
  · show mapGet (mapDelete st.handlers topic) topic = none
    exact mapGet_mapDelete_self _ _ hnd
  · show mapGet (mapDelete st.subscriptions topic) topic = none
    exact mapGet_mapDelete_self _ _ hns
  · intro msg throws htop
    unfold TopicManager.dispatchMessage
    have hres : mapGet (TopicManager.unsubscribe st topic none true).1.handlers msg.topic
        = none := by
      rw [htop]
      exact mapGet_mapDelete_self _ _ hnd
    rw [hres]

/-- A topic state in which handlers 1 and 2 are both subscribed to "t". -/
def twoHandlerState : TopicState := ⟨[("t", ⟨0, 2⟩)], [("t", [1, 2])]⟩

/-- Witness for `unsubscribe_full_removes_all`: with handlers 1 and 2 both
subscribed to "t", the full unsubscribe removes the whole entry and a
subsequent dispatch for "t" invokes neither handler. -/
theorem unsubscribe_full_removes_all_witness :
    mapGet (TopicManager.unsubscribe twoHandlerState "t" none true).1.handlers "t" = none ∧
      TopicManager.dispatchMessage (TopicManager.unsubscribe twoHandlerState "t" none true).1
          ⟨"t", "d", 5, "p"⟩ (fun _ => false)
        = ([], []) := by
  have h := unsubscribe_full_removes_all twoHandlerState "t"
    (by unfold keyNodup; decide) (by unfold keyNodup; decide)
  exact ⟨h.2.1, h.2.2.2 ⟨"t", "d", 5, "p"⟩ (fun _ => false) rfl⟩

/-- C9: during dispatch of one inbound message, every handler in the topic
handler set is invoked with `(data, {topic, timestamp, publisher})`; a handler
that throws is caught and logged and does not prevent the invocation of the
remaining handlers of the set. -/
theorem dispatchMessage_invokes_every_handler (st : TopicState) (msg : InboundMessage)
    (throws : Nat → Bool) (hs : List Nat) (h : Nat)
    (hget : mapGet st.handlers msg.topic = some hs) (hmem : h ∈ hs) :
    (⟨h, msg.data, ⟨msg.topic, msg.timestamp, msg.publisher⟩⟩ : Invocation)
      ∈ (TopicManager.dispatchMessage st msg throws).1 := by
  unfold TopicManager.dispatchMessage
  rw [hget, foldl_dispatchStep_fst]
  simp only [List.nil_append]
  exact List.mem_map_of_mem _ hmem

/-- Witness for `dispatchMessage_invokes_every_handler`: handler 1 throws, yet
handler 2 — later in the same set — is still invoked with the message data and
metadata. -/
theorem dispatchMessage_invokes_every_handler_witness :
    mapGet (twoHandlerState).handlers "t" = some [1, 2] ∧
      (2 : Nat) ∈ [1, 2] ∧
      (⟨2, "d", ⟨"t", 5, "p"⟩⟩ : Invocation)
        ∈ (TopicManager.dispatchMessage twoHandlerState ⟨"t", "d", 5, "p"⟩
            (fun h => h == 1)).1 :=
  ⟨by decide, by decide,
    dispatchMessage_invokes_every_handler twoHandlerState ⟨"t", "d", 5, "p"⟩
      (fun h => h == 1) [1, 2] 2 (by decide) (by decide)⟩

/-! ## RequestManager (src/managers/request.manager.js)

Method handlers are JS function objects; we model them as opaque numeric
identifiers, and the observable behaviour of a handler on a payload — how long
it takes to settle, and whether it resolves with a result or rejects with an
error message — is supplied by a `run` function.  `Promise.race` of the handler
against the `setTimeout` rejection is decided by comparing the settle time with
the registered timeout: from `timeout` milliseconds on, the timer fires first
and the race rejects with the `Method timeout` error; the handler result that
arrives later is discarded by the already-settled race, so the single
`context.success`/`context.error` control path below sends exactly the replies
that the source sends. -/

/-- Options stored with a registered method; the source stores
`{timeout: this.defaultTimeout, ...options}`. -/
structure MethodOptions where
  timeout : Nat
deriving DecidableEq

/-- A registered method: the handler reference and its options. -/
structure MethodInfo where
  handler : Nat
  options : MethodOptions
deriving DecidableEq

/-- `this.defaultTimeout` of `RequestManager`: 30000 ms. -/
def defaultTimeout : Nat := 30000

/-- The observable behaviour of a handler call: it settles after `after`
milliseconds, resolving with a value or rejecting with an error message. -/
inductive HandlerOutcome where
  | completes (after : Nat) (result : Except String String)

/-- A reply sent on the inbound-call context: `context.success(result)` or
`context.error(code, message)`. -/
inductive Reply where
  | success (result : String)
  | error (code : String) (message : String)
deriving DecidableEq

namespace RequestManager

/-- `registerMethod(name, handler, options)`: throw on a duplicate name,
otherwise store `{handler, options: {timeout: defaultTimeout, ...options}}`;
`timeoutOpt` is the optional `options.timeout`. -/
def registerMethod (methods : List (String × MethodInfo)) (name : String) (handler : Nat)
    (timeoutOpt : Option Nat) : Except String (List (String × MethodInfo)) :=
  if (mapGet methods name).isSome then
    Except.error ("Method " ++ name ++ " already registered")
  else
    Except.ok (mapSet methods name ⟨handler, ⟨timeoutOpt.getD defaultTimeout⟩⟩)

/-- `unregisterMethod(name)`. -/
def unregisterMethod (methods : List (String × MethodInfo)) (name : String) :
    List (String × MethodInfo) :=
  mapDelete methods name

/-- `handleIncomingRequest(context)` for an inbound call `{method, payload}`:
the unknown-method throw and handler errors funnel through the single catch
block into `context.error('METHOD_ERROR', message)`; a handler settling before
its timeout yields `context.success(result)` or its own error message, and a
handler exceeding the timeout yields the `Method timeout` error.  Returns the
replies sent on the context and the list of handlers invoked. -/
def handleIncomingRequest (methods : List (String × MethodInfo)) (method payload : String)
    (run : Nat → String → HandlerOutcome) : List Reply × List Nat :=
  match mapGet methods method with
  | none => ([Reply.error "METHOD_ERROR" ("Method " ++ method ++ " not found")], [])
  | some methodInfo =>
      match run methodInfo.handler payload with
      | .completes after result =>
          if after < methodInfo.options.timeout then
            match result with
            | .ok value => ([Reply.success value], [methodInfo.handler])
            | .error e => ([Reply.error "METHOD_ERROR" e], [methodInfo.handler])
          else
            ([Reply.error "METHOD_ERROR" "Method timeout"], [methodInfo.handler])

end RequestManager

theorem handleIncomingRequest_invokes (methods : List (String × MethodInfo))
    (method payload : String) (run : Nat → String → HandlerOutcome)
    (methodInfo : MethodInfo) (hget : mapGet methods method = some methodInfo) :
    (RequestManager.handleIncomingRequest methods method payload run).2
      = [methodInfo.handler] := by
  unfold RequestManager.handleIncomingRequest
  simp only [hget]
  cases run methodInfo.handler payload with
  | completes after result =>
    by_cases hlt : after < methodInfo.options.timeout
    · rw [if_pos hlt]
      cases result <;> rfl
    · rw [if_neg hlt]

/-- C3: for every inbound call whose method is registered, exactly one reply is
sent: the handler result when it resolves before its deadline, the translation
of its own thrown error (code `METHOD_ERROR`) when it rejects before the
deadline, and the `Method timeout` error when it exceeds the deadline; in the
timeout case the late completion of the handler is discarded and produces no
second reply. -/
theorem handleIncomingRequest_one_reply (methods : List (String × MethodInfo))
    (method payload : String) (run : Nat → String → HandlerOutcome)
    (methodInfo : MethodInfo) (after : Nat) (result : Except String String)
    (hget : mapGet methods method = some methodInfo)
    (hrun : run methodInfo.handler payload = .completes after result) :
    (RequestManager.handleIncomingRequest methods method payload run).1.length = 1 ∧
      (methodInfo.options.timeout ≤ after →
        (RequestManager.handleIncomingRequest methods method payload run).1
          = [Reply.error "METHOD_ERROR" "Method timeout"]) ∧
      (∀ value, after < methodInfo.options.timeout → result = .ok value →
        (RequestManager.handleIncomingRequest methods method payload run).1
          = [Reply.success value]) ∧
      (∀ e, after < methodInfo.options.timeout → result = .error e →
        (RequestManager.handleIncomingRequest methods method payload run).1
          = [Reply.error "METHOD_ERROR" e]) := by
  unfold RequestManager.handleIncomingRequest
  simp only [hget, hrun]
  by_cases hlt : after < methodInfo.options.timeout
  · rw [if_pos hlt]
    cases result with
    | ok value =>
      refine ⟨rfl, ?_, ?_, ?_⟩
      · intro hle; omega
      · intro v _ hv; cases hv; rfl
      · intro e _ he; cases he
    | error e =>
      refine ⟨rfl, ?_, ?_, ?_⟩
      · intro hle; omega
      · intro v _ hv; cases hv
      · intro e2 _ he; cases he; rfl
  · rw [if_neg hlt]
    refine ⟨rfl, fun _ => rfl, ?_, ?_⟩
    · intro v hlt2 _; omega
    · intro e hlt2 _; omega

/-- Witness for `handleIncomingRequest_one_reply`: a method with a 10 ms
timeout whose handler resolves after 50 ms yields exactly the single
`Method timeout` error reply; the late result "late" appears in no reply. -/
theorem handleIncomingRequest_one_reply_witness :
    mapGet [("x", (⟨7, ⟨10⟩⟩ : MethodInfo))] "x" = some ⟨7, ⟨10⟩⟩ ∧
      (RequestManager.handleIncomingRequest [("x", ⟨7, ⟨10⟩⟩)] "x" "p"
          (fun _ _ => .completes 50 (.ok "late"))).1
        = [Reply.error "METHOD_ERROR" "Method timeout"] :=
  ⟨by decide,
    (handleIncomingRequest_one_reply [("x", ⟨7, ⟨10⟩⟩)] "x" "p"
        (fun _ _ => .completes 50 (.ok "late")) ⟨7, ⟨10⟩⟩ 50 (.ok "late")
        (by decide) rfl).2.1 (by decide)⟩

/-- C4: an inbound call whose method has no matching local registration is
answered with the method-not-found error reply and no handler is invoked. -/
theorem handleIncomingRequest_method_not_found (methods : List (String × MethodInfo))
    (method payload : String) (run : Nat → String → HandlerOutcome)
    (hget : mapGet methods method = none) :
    RequestManager.handleIncomingRequest methods method payload run
      = ([Reply.error "METHOD_ERROR" ("Method " ++ method ++ " not found")], []) := by
  unfold RequestManager.handleIncomingRequest
  rw [hget]

/-- Witness for `handleIncomingRequest_method_not_found` on an empty method
table. -/
theorem handleIncomingRequest_method_not_found_witness :
    mapGet ([] : List (String × MethodInfo)) "y" = none ∧
      RequestManager.handleIncomingRequest [] "y" "p"
          (fun _ _ => .completes 0 (.ok "r"))
        = ([Reply.error "METHOD_ERROR" "Method y not found"], []) :=
  ⟨rfl, handleIncomingRequest_method_not_found [] "y" "p"
    (fun _ _ => .completes 0 (.ok "r")) rfl⟩

/-- C7: `registerMethod` on an already-registered name fails with the duplicate
error and leaves the table unchanged, so a subsequent inbound call to that name
still invokes the originally registered handler; on a free name the
registration is stored with `options.timeout`, falling back to the node-wide
default 30000 when unspecified. -/
theorem registerMethod_duplicate_and_timeout (methods : List (String × MethodInfo))
    (name : String) (handler h0 : Nat) (opts0 : MethodOptions) (timeoutOpt : Option Nat) :
    (mapGet methods name = some ⟨h0, opts0⟩ →
      RequestManager.registerMethod methods name handler timeoutOpt
          = Except.error ("Method " ++ name ++ " already registered") ∧
        ∀ (payload : String) (run : Nat → String → HandlerOutcome),
          (RequestManager.handleIncomingRequest methods name payload run).2 = [h0]) ∧
      (mapGet methods name = none →
        ∃ m2, RequestManager.registerMethod methods name handler timeoutOpt = Except.ok m2 ∧
          mapGet m2 name = some ⟨handler, ⟨timeoutOpt.getD defaultTimeout⟩⟩) := by
  constructor
  · intro hget
    constructor
    · simp [RequestManager.registerMethod, hget]
    · intro payload run
      exact handleIncomingRequest_invokes methods name payload run ⟨h0, opts0⟩ hget
  · intro hget
    refine ⟨mapSet methods name ⟨handler, ⟨timeoutOpt.getD defaultTimeout⟩⟩, ?_,
      mapGet_mapSet_self _ _ _⟩
    simp [RequestManager.registerMethod, hget]

/-- Witness for `registerMethod_duplicate_and_timeout`: re-registering "x"
fails with the duplicate error and an inbound call to "x" still invokes the
original handler 1. -/
theorem registerMethod_duplicate_and_timeout_witness :
    RequestManager.registerMethod [("x", ⟨1, ⟨10⟩⟩)] "x" 2 none
        = Except.error "Method x already registered" ∧
      (RequestManager.handleIncomingRequest [("x", ⟨1, ⟨10⟩⟩)] "x" "p"
          (fun _ _ => .completes 0 (.ok "r"))).2 = [1] := by
  have h := (registerMethod_duplicate_and_timeout [("x", ⟨1, ⟨10⟩⟩)] "x" 2 1 ⟨10⟩ none).1
    (by decide)
  exact ⟨h.1, h.2 "p" (fun _ _ => .completes 0 (.ok "r"))⟩

/-! ## Satellite.stop and the pending-request cleanup (src/satellite.js)

`RequestManager` keeps a `pendingRequests` map, and its `cleanup()` rejects
every entry with an `Error("Service stopping")`.  We track, for each
manager-level operation, the list of `(id, reason)` rejections it delivers to
pending calls. -/

/-- The mutable state of a `RequestManager`: the method table and the
`pendingRequests` map (correlation id to pending promise reference). -/
structure RequestState where
  methods : List (String × MethodInfo)
  pendingRequests : List (String × Nat)
deriving DecidableEq

namespace RequestManager

/-- `sendRequest(target, method, data, options)`: forward a `broker:request`
with `options.timeout || defaultTimeout` and hand the response (or the failure)
straight back to the caller.  It records nothing in `pendingRequests`. -/
def sendRequest (st : RequestState) (target method data : String)
    (timeoutOpt : Option Nat) : RequestState × List BrokerCall :=
  (st, [BrokerCall.request target method data (timeoutOpt.getD defaultTimeout)])

/-- `cleanup()`: reject every entry of `pendingRequests` with
`Error("Service stopping")`, then clear `pendingRequests` and `methods`.
Returns the new state and the rejections delivered. -/
def cleanup (st : RequestState) : RequestState × List (String × String) :=
  (⟨[], []⟩, st.pendingRequests.map (fun p => (p.1, "Service stopping")))

end RequestManager

/-- The state of a `Satellite` node restricted to the managers and flags
touched by `stop()`. -/
structure SatelliteState where
  topics : TopicState
  requests : RequestState
  ready : Bool
  connected : Bool
  identified : Bool

/-- `Satellite.stop()`: awaits `this.topics.cleanup()`, disconnects the client
and resets the flags.  It never calls `this.requests.cleanup()`, so the request
manager state is untouched and no rejection is delivered to a pending call: the
third component collects the `(id, reason)` rejections performed during the
stop sequence, and no statement of `stop()` performs one. -/
def Satellite.stop (st : SatelliteState) :
    SatelliteState × List BrokerCall × List (String × String) :=
  let tc := TopicManager.cleanup st.topics
  ({ st with topics := tc.1, ready := false, connected := false, identified := false },
    tc.2, [])

/-- C6 fails on the code: `Satellite.stop` delivers no `Service stopping`
rejection at all — `RequestManager.cleanup`, the only place that rejects
pending calls with that reason, is never invoked by `stop()`, and
`sendRequest` never registers the outstanding call in `pendingRequests` in the
first place (so even a direct `cleanup()` would find nothing to reject for
calls issued through `sendRequest`).  The last conjunct shows the dead
machinery: `cleanup` itself would reject exactly the `pendingRequests`
entries. -/
theorem stop_rejects_no_pending (st : SatelliteState) (target method data : String)
    (timeoutOpt : Option Nat) :
    (Satellite.stop st).2.2 = [] ∧
      (RequestManager.sendRequest st.requests target method data timeoutOpt).1
        = st.requests ∧
      (Satellite.stop st).1.requests = st.requests ∧
      (RequestManager.cleanup st.requests).2
        = st.requests.pendingRequests.map (fun p => (p.1, "Service stopping")) :=
  ⟨rfl, rfl, rfl, rfl⟩
